import Mathlib

/-!
# ArchiveExplorer hybrid retrieval engine — a shallow embedding

This file embeds the hybrid search core of the ArchiveExplorer repository
(`src/lib/aiSearchUtils.ts` together with the cosine-similarity routine of its
embedding service) into Lean and proves the specified properties about it.

Modelling conventions:
* JavaScript numbers are modelled as rationals (`ℚ`); `Math.round` is
  `fun q => ⌊q + 1/2⌋` (round half toward +∞, as in JS).
* `Math.sqrt` is an opaque numeric primitive of the host; it is passed as an
  explicit parameter `sqrt : ℚ → ℚ` to every definition that uses it.
* The singleton embedding service (`embeddingService.initialize` +
  `embeddingService.embed`) is modelled as a state-threaded oracle
  `Embedder σ`; a `none` result models a thrown error (model-load or
  inference failure).  `await`-interleavings are linearized left to right.
* In-place mutation of `article.embedding` (the per-document vector cache)
  is modelled by returning the updated corpus list alongside the results.
* A thrown exception that is caught is modelled with `Option`/`Except`;
  every top-level search function is total, mirroring the fact that the
  source catches every embedding failure and falls back to keyword search.
-/

/-- JS `String.prototype.includes` on lists of characters:
`needle` occurs contiguously inside `hay`. -/
def charsIncludes (hay needle : List Char) : Bool :=
  hay.tails.any (fun t => needle.isPrefixOf t)

/-- JS `hay.includes(needle)` for strings. -/
def strIncludes (hay needle : String) : Bool :=
  charsIncludes hay.toList needle.toList

/-- JS `Math.round`: round half toward positive infinity. -/
def jsRound (q : ℚ) : ℤ := ⌊q + 1/2⌋

/-- A computable square root on `ℚ` that is exact on rationals whose
numerator and denominator are perfect squares; used to instantiate the
`sqrt` parameter on concrete runs where only such values occur. -/
def ratSqrt (q : ℚ) : ℚ :=
  (Nat.sqrt q.num.natAbs : ℚ) / (Nat.sqrt q.den : ℚ)

/-- The `Article` record of `src/lib/aiSearchUtils.ts` (fields of
`articles.json`, plus the optional cached `embedding` vector). -/
structure Article where
  id : ℤ
  title : String
  url : String
  date : String
  type : String
  description : String
  tags : List String
  keywords : String
  embedding : Option (List ℚ) := none
deriving DecidableEq, Repr

/-- `SearchResult extends Article` with a relevance score (0–100 scale)
and, for semantic results, the raw cosine similarity. -/
structure SearchResult extends Article where
  relevanceScore : ℚ
  similarityScore : Option ℚ := none
deriving DecidableEq, Repr

/-- The external embedding backend (`embeddingService`): given its private
state and a text, it either produces a vector or fails (a thrown error,
covering both model-load and inference failures).  The state parameter
also lets a run count or log invocations. -/
structure Embedder (σ : Type) where
  embed : σ → String → σ × Option (List ℚ)

/-- `cosineSimilarity` from the embedding service:
dot(a,b) / (√(Σa²)·√(Σb²)); throws when the lengths differ; returns 0 when
either norm is zero.  `sqrt` is the host's `Math.sqrt`. -/
def cosineSimilarity (sqrt : ℚ → ℚ) (vecA vecB : List ℚ) : Except String ℚ :=
  if vecA.length = vecB.length then
    let dotProduct := (List.zipWith (· * ·) vecA vecB).sum
    let normA := sqrt ((vecA.map (fun x => x * x)).sum)
    let normB := sqrt ((vecB.map (fun x => x * x)).sum)
    if normA = 0 ∨ normB = 0 then
      .ok 0
    else
      .ok (dotProduct / (normA * normB))
  else
    .error "Vectors must have same length"

/-- The per-article scoring loop of `searchArticlesKeyword`. -/
def keywordScore (query : String) (article : Article) : ℚ :=
  let queryLower := query.toLower
  let queryWords := (queryLower.split (fun c => c.isWhitespace)).filter
    (fun word => word.length > 2)
  let score : ℚ := 0
  let score := if strIncludes article.title.toLower queryLower then score + 100 else score
  let score := if strIncludes article.description.toLower queryLower then score + 50 else score
  let score := queryWords.foldl
    (fun s word => if strIncludes article.title.toLower word then s + 20 else s) score
  let score := queryWords.foldl
    (fun s word => if strIncludes article.description.toLower word then s + 10 else s) score
  let score := queryWords.foldl
    (fun s word => article.tags.foldl
      (fun s2 tag =>
        if strIncludes tag.toLower word || strIncludes word tag.toLower then s2 + 15 else s2)
      s) score
  let score := queryWords.foldl
    (fun s word => if strIncludes article.keywords.toLower word then s + 5 else s) score
  let score := if strIncludes article.type.toLower queryLower then score + 10 else score
  score

/-- The comparator `(a, b) => b.relevanceScore - a.relevanceScore` of the JS
sorts, as the relation "a may come before b": `b.relevanceScore ≤ a.relevanceScore`. -/
def scoreGE (a b : SearchResult) : Prop :=
  b.relevanceScore ≤ a.relevanceScore

instance : DecidableRel scoreGE :=
  fun a b => inferInstanceAs (Decidable (b.relevanceScore ≤ a.relevanceScore))

instance : IsTotal SearchResult scoreGE :=
  ⟨fun a b => le_total b.relevanceScore a.relevanceScore⟩

instance : IsTrans SearchResult scoreGE :=
  ⟨fun _ _ _ h1 h2 => le_trans h2 h1⟩

/-- JS `Array.prototype.sort((a, b) => b.relevanceScore - a.relevanceScore)`:
a stable sort, descending by score (stable sorting under a total preorder is
unique, so any stable sorting algorithm models the JS runtime's). -/
def sortByScoreDesc (results : List SearchResult) : List SearchResult :=
  results.insertionSort scoreGE

/-- `searchArticlesKeyword` from `src/lib/aiSearchUtils.ts`. -/
def searchArticlesKeyword (query : String) (articles : List Article) :
    List SearchResult :=
  if query.trim.isEmpty then
    articles.map (fun article => { toArticle := article, relevanceScore := 0 })
  else
    let results := articles.map
      (fun article => { toArticle := article, relevanceScore := keywordScore query article })
    sortByScoreDesc (results.filter (fun r => decide (0 < r.relevanceScore)))

/-- The `articles.map (async article => …)` loop of `searchArticlesAI`:
for each article, reuse `article.embedding` if present, otherwise embed
`title ++ ". " ++ description` and store it on the article (the in-place
vector cache); then score by cosine similarity against the query vector,
with `relevanceScore = Math.round(similarity * 100)`.  Returns the final
embedder state, the corpus with any newly cached vectors, and `none` when
any embedding (or a vector-length mismatch inside `cosineSimilarity`)
threw — in which case the caller falls back, but mutations already
performed on the corpus persist, as they do under `Promise.all`. -/
def scoreArticles (E : Embedder σ) (sqrt : ℚ → ℚ) (queryEmbedding : List ℚ) :
    List Article → σ → σ × List Article × Option (List SearchResult)
  | [], s => (s, [], some [])
  | article :: rest, s =>
    let step : σ × Article × Option (List ℚ) :=
      match article.embedding with
      | some v => (s, article, some v)
      | none =>
        match E.embed s (article.title ++ ". " ++ article.description) with
        | (s1, some v) => (s1, { article with embedding := some v }, some v)
        | (s1, none) => (s1, article, none)
    let scored : Option SearchResult :=
      match step.2.2 with
      | none => none
      | some v =>
        match cosineSimilarity sqrt queryEmbedding v with
        | .error _ => none
        | .ok similarity =>
          some { toArticle := step.2.1,
                 relevanceScore := ((jsRound (similarity * 100) : ℤ) : ℚ),
                 similarityScore := some similarity }
    let tail := scoreArticles E sqrt queryEmbedding rest step.1
    (tail.1, step.2.1 :: tail.2.1,
      match scored, tail.2.2 with
      | some r, some rs => some (r :: rs)
      | _, _ => none)

/-- The outcome of a search call: the returned results, the corpus as left
behind by any in-place embedding caching, and the embedder state. -/
structure SearchRun (σ : Type) where
  results : List SearchResult
  articles : List Article
  state : σ
deriving Repr

/-- `searchArticlesAI` from `src/lib/aiSearchUtils.ts`: embed the query,
score every article by cosine similarity, keep scores `> 10`, sort
descending; on any embedding failure fall back to
`searchArticlesKeyword` (the `catch` branch). -/
def searchArticlesAI (E : Embedder σ) (sqrt : ℚ → ℚ) (query : String)
    (articles : List Article) (s : σ) : SearchRun σ :=
  if query.trim.isEmpty then
    ⟨articles.map (fun article => { toArticle := article, relevanceScore := 0 }),
      articles, s⟩
  else
    match E.embed s query with
    | (s1, none) => ⟨searchArticlesKeyword query articles, articles, s1⟩
    | (s1, some queryEmbedding) =>
      match scoreArticles E sqrt queryEmbedding articles s1 with
      | (s2, articles2, none) =>
        ⟨searchArticlesKeyword query articles2, articles2, s2⟩
      | (s2, articles2, some results) =>
        ⟨sortByScoreDesc (results.filter (fun r => decide (10 < r.relevanceScore))),
          articles2, s2⟩

/-- `combinedMap.set(id, v)`: the JS `Map` keeps the original insertion
position when a key is overwritten, else appends. -/
def mapSet (m : List (ℤ × SearchResult)) (k : ℤ) (v : SearchResult) :
    List (ℤ × SearchResult) :=
  if m.any (fun p => p.1 == k) then
    m.map (fun p => if p.1 == k then (k, v) else p)
  else
    m ++ [(k, v)]

/-- First fusion pass of `searchArticlesHybrid`: every AI result enters the
combined map with its score weighted by 0.7. -/
def fuseSemantic (m : List (ℤ × SearchResult)) (result : SearchResult) :
    List (ℤ × SearchResult) :=
  mapSet m result.id { result with relevanceScore := result.relevanceScore * (7/10) }

/-- Second fusion pass: a keyword result adds 0.3 of its score to an
existing entry, or enters the map with its score weighted by 0.3. -/
def fuseKeyword (m : List (ℤ × SearchResult)) (result : SearchResult) :
    List (ℤ × SearchResult) :=
  if m.any (fun p => p.1 == result.id) then
    m.map (fun p =>
      if p.1 == result.id then
        (p.1, { p.2 with relevanceScore := p.2.relevanceScore + result.relevanceScore * (3/10) })
      else p)
  else
    m ++ [(result.id, { result with relevanceScore := result.relevanceScore * (3/10) })]

/-- The fused, not-yet-sorted value sequence of the combined map
(`Array.from(combinedMap.values())`). -/
def fuseResults (aiResults keywordResults : List SearchResult) : List SearchResult :=
  ((keywordResults.foldl fuseKeyword (aiResults.foldl fuseSemantic [])).map Prod.snd)

/-- `searchArticlesHybrid` from `src/lib/aiSearchUtils.ts`: run the AI and
keyword searches, fuse scores 70/30 through the combined map, and sort the
fused values descending.  `searchArticlesKeyword` runs synchronously on
the corpus as supplied (before any of the AI branch's cache writes land). -/
def searchArticlesHybrid (E : Embedder σ) (sqrt : ℚ → ℚ) (query : String)
    (articles : List Article) (s : σ) : SearchRun σ :=
  if query.trim.isEmpty then
    ⟨articles.map (fun article => { toArticle := article, relevanceScore := 0 }),
      articles, s⟩
  else
    let ai := searchArticlesAI E sqrt query articles s
    let keywordResults := searchArticlesKeyword query articles
    ⟨sortByScoreDesc (fuseResults ai.results keywordResults), ai.articles, ai.state⟩

/-- The text embedded for an article: `title ++ ". " ++ description`. -/
def articleText (article : Article) : String :=
  article.title ++ ". " ++ article.description

instance : DecidableEq (Except String ℚ) := fun a b =>
  match a, b with
  | .ok x, .ok y => decidable_of_iff (x = y) (by simp)
  | .error x, .error y => decidable_of_iff (x = y) (by simp)
  | .ok _, .error _ => isFalse (by simp)
  | .error _, .ok _ => isFalse (by simp)

/-- The lexical scoring table as the specification words it (§4.3): a sum of
weighted match counts over title, description, tags, keywords and type.
Used to check the implementation scorer against the spec. -/
def lexScoreSpec (query : String) (article : Article) : ℚ :=
  let queryLower := query.toLower
  let queryWords := (queryLower.split (fun c => c.isWhitespace)).filter
    (fun word => word.length > 2)
  (if strIncludes article.title.toLower queryLower then (100 : ℚ) else 0)
    + (if strIncludes article.description.toLower queryLower then (50 : ℚ) else 0)
    + 20 * (queryWords.countP (fun word => strIncludes article.title.toLower word) : ℚ)
    + 10 * (queryWords.countP (fun word => strIncludes article.description.toLower word) : ℚ)
    + 15 * ((queryWords.map (fun word => (article.tags.countP
        (fun tag => strIncludes tag.toLower word || strIncludes word tag.toLower) : ℚ))).sum)
    + 5 * (queryWords.countP (fun word => strIncludes article.keywords.toLower word) : ℚ)
    + (if strIncludes article.type.toLower queryLower then (10 : ℚ) else 0)

/-- The id sequence of a result list. -/
def resultIds (results : List SearchResult) : List ℤ :=
  results.map (fun r => r.id)

/-- The id sequence of a corpus. -/
def articleIds (articles : List Article) : List ℤ :=
  articles.map (fun a => a.id)

/-- The score a result family assigns to a document id: the score of its
entry when the id is present, 0 when the family does not contain it. -/
def scoreOf (results : List SearchResult) (i : ℤ) : ℚ :=
  match results.find? (fun r => r.id == i) with
  | some r => r.relevanceScore
  | none => 0

/-- The specification's `Document` fields of an article (everything except
the `embedding` cache slot). -/
def documentFields (a : Article) : Article :=
  { a with embedding := none }

/-! ## Concrete fixtures for witnesses and counterexamples -/

/-- A two-word article whose lexical score for the query
`"history zqx"` is 20 (title word match) + 15 (tag match) = 35. -/
def artA : Article :=
  { id := 1, title := "History Hall", url := "", date := "",
    type := "", description := "", tags := ["history"], keywords := "" }

/-- An article with no lexical overlap with the query `"history zqx"`. -/
def artB : Article :=
  { id := 2, title := "Bqqq", url := "", date := "",
    type := "", description := "Wppp", tags := [], keywords := "" }

/-- An article whose lexical score for the query `"history zzz"` is 20. -/
def artC : Article :=
  { id := 3, title := "History Museum", url := "", date := "",
    type := "", description := "", tags := [], keywords := "" }

/-- A deterministic embedding backend giving the query `"history zqx"`
cosine 1/4 against `artA` (semantic score 25) and cosine 2/5 against
`artB` (semantic score 40); all norms are perfect squares so `ratSqrt`
coincides with the real square root on this run. -/
def embAB : Embedder Unit :=
  ⟨fun _ t => ((), some (
    if t = "history zqx" then [1, 0, 0, 0, 0]
    else if t = "History Hall. " then [1, 3, 2, 1, 1]
    else [2, 4, 2, 1, 0]))⟩

/-- A deterministic embedding backend giving the query `"history zzz"`
cosine 4/5 against `artC` (semantic score 80). -/
def embC : Embedder Unit :=
  ⟨fun _ t => ((), some (if t = "history zzz" then [1, 0] else [4/5, 3/5]))⟩

/-- An embedding backend whose every call fails (model unavailable). -/
def embFail : Embedder Unit :=
  ⟨fun s _ => (s, none)⟩

/-- An embedding backend that logs every embedded text into its state and
answers with `f` of the text. -/
def embLog (f : String → List ℚ) : Embedder (List String) :=
  ⟨fun s t => (s ++ [t], some (f t))⟩

/-! ## Helper lemmas -/

theorem foldl_if_count {α : Type} (c : ℚ) (p : α → Bool) (l : List α) (init : ℚ) :
    l.foldl (fun s x => if p x then s + c else s) init = init + c * l.countP p := by
  induction l generalizing init with
  | nil => simp
  | cons x xs ih =>
    simp only [List.foldl_cons, List.countP_cons, ih]
    by_cases h : p x = true <;> simp [h] <;> push_cast <;> ring

theorem foldl_add_sum {α : Type} (f : α → ℚ) (l : List α) (init : ℚ) :
    l.foldl (fun s x => s + f x) init = init + (l.map f).sum := by
  induction l generalizing init with
  | nil => simp
  | cons x xs ih =>
    simp only [List.foldl_cons, List.map_cons, List.sum_cons, ih]
    ring

theorem keywordScore_eq_lexScoreSpec (query : String) (article : Article) :
    keywordScore query article = lexScoreSpec query article := by
  unfold keywordScore lexScoreSpec
  simp only [foldl_if_count, foldl_add_sum, List.sum_map_mul_left]
  split_ifs <;> push_cast <;> ring

/-! ## C9: cosine similarity is symmetric -/

/-- C9: for every pair of vectors `a`, `b` of matching length (and any
realization of the host's `Math.sqrt`), `cosineSimilarity` is symmetric:
`cosineSimilarity(a, b) = cosineSimilarity(b, a)`. -/
theorem claim_C9_cosineSimilarity_symm (sqrt : ℚ → ℚ) (a b : List ℚ)
    (h : a.length = b.length) :
    cosineSimilarity sqrt a b = cosineSimilarity sqrt b a := by
  unfold cosineSimilarity
  rw [if_pos h, if_pos h.symm]
  dsimp only
  rw [List.zipWith_comm_of_comm _ mul_comm]
  exact if_congr or_comm rfl (by rw [mul_comm])

/-- Witness for C9 at the concrete vectors `[1, 2]` and `[3, 4]`. -/
theorem claim_C9_witness :
    ([1, 2] : List ℚ).length = ([3, 4] : List ℚ).length
      ∧ cosineSimilarity ratSqrt [1, 2] [3, 4] = cosineSimilarity ratSqrt [3, 4] [1, 2] :=
  ⟨rfl, claim_C9_cosineSimilarity_symm ratSqrt [1, 2] [3, 4] rfl⟩

/-! ## C6: empty query returns the whole corpus unscored -/

/-- C6: for every corpus, an empty or whitespace-only query makes both
`searchArticlesHybrid` and `searchArticlesKeyword` return every document
with `relevanceScore` 0, in original corpus order, unfiltered and
unsorted. -/
theorem claim_C6_empty_query {σ : Type} (E : Embedder σ) (sqrt : ℚ → ℚ)
    (query : String) (articles : List Article) (s : σ)
    (h : query.trim.isEmpty = true) :
    (searchArticlesHybrid E sqrt query articles s).results
        = articles.map (fun article => { toArticle := article, relevanceScore := 0 })
      ∧ searchArticlesKeyword query articles
        = articles.map (fun article => { toArticle := article, relevanceScore := 0 }) := by
  constructor
  · simp [searchArticlesHybrid, h]
  · simp [searchArticlesKeyword, h]

/-- Witness for C6: a whitespace-only query over the two-document corpus
`[artA, artB]`. -/
theorem claim_C6_witness :
    ("  ".trim.isEmpty = true)
      ∧ ((searchArticlesHybrid embAB ratSqrt "  " [artA, artB] ()).results
          = [artA, artB].map (fun article => { toArticle := article, relevanceScore := 0 })
        ∧ searchArticlesKeyword "  " [artA, artB]
          = [artA, artB].map (fun article => { toArticle := article, relevanceScore := 0 })) :=
  ⟨by with_unfolding_all decide,
    claim_C6_empty_query embAB ratSqrt "  " [artA, artB] () (by with_unfolding_all decide)⟩

/-! ## C7: the lexical scoring table -/

/-- C7: for every non-empty query, the per-document lexical score computed
by `searchArticlesKeyword` equals the specification's weighted sum: 100
for the query phrase in the title, 50 in the description, 20 per query
word (length > 2) in the title, 10 per word in the description, 15 per
(word, tag) substring-either-direction pair, 5 per word in the keywords
field, and 10 for the phrase occurring in the type label; tokenization
splits on whitespace, drops tokens of length ≤ 2 from the per-word checks
only, and matches case-insensitively (`lexScoreSpec` transcribes exactly
that sum). -/
theorem claim_C7_lexical_score_table (query : String) (articles : List Article)
    (h : query.trim.isEmpty = false) :
    (∀ article, keywordScore query article = lexScoreSpec query article)
      ∧ searchArticlesKeyword query articles
        = sortByScoreDesc ((articles.map (fun article =>
            { toArticle := article, relevanceScore := lexScoreSpec query article })).filter
              (fun r => decide (0 < r.relevanceScore))) := by
  refine ⟨fun article => keywordScore_eq_lexScoreSpec query article, ?_⟩
  unfold searchArticlesKeyword
  rw [if_neg (by simp [h])]
  simp only [keywordScore_eq_lexScoreSpec]

/-- Witness for C7 at the query `"history zqx"` over `[artA, artB]`:
the lexical scores are 35 and 0 and only `artA` survives. -/
theorem claim_C7_witness :
    ("history zqx".trim.isEmpty = false)
      ∧ ((∀ article, keywordScore "history zqx" article = lexScoreSpec "history zqx" article)
        ∧ searchArticlesKeyword "history zqx" [artA, artB]
          = sortByScoreDesc (([artA, artB].map (fun article =>
              { toArticle := article, relevanceScore := lexScoreSpec "history zqx" article })).filter
                (fun r => decide (0 < r.relevanceScore)))) :=
  ⟨by with_unfolding_all decide,
    claim_C7_lexical_score_table "history zqx" [artA, artB] (by with_unfolding_all decide)⟩

theorem sortByScoreDesc_perm (l : List SearchResult) :
    List.Perm (sortByScoreDesc l) l :=
  List.perm_insertionSort _ _

theorem sortByScoreDesc_sorted (l : List SearchResult) :
    List.Sorted scoreGE (sortByScoreDesc l) :=
  List.sorted_insertionSort _ _

theorem sortByScoreDesc_mem {r : SearchResult} {l : List SearchResult} :
    r ∈ sortByScoreDesc l ↔ r ∈ l :=
  List.mem_insertionSort scoreGE

theorem resultIds_map_score (articles : List Article) (f : Article → ℚ) :
    resultIds (articles.map (fun a => { toArticle := a, relevanceScore := f a }))
      = articleIds articles := by
  unfold resultIds articleIds
  rw [List.map_map]
  rfl

theorem resultIds_sortFilter_nodup {l : List SearchResult}
    (h : (resultIds l).Nodup) (p : SearchResult → Bool) :
    (resultIds (sortByScoreDesc (l.filter p))).Nodup := by
  have h1 : List.Perm (resultIds (sortByScoreDesc (l.filter p))) (resultIds (l.filter p)) :=
    (sortByScoreDesc_perm _).map _
  refine h1.nodup_iff.mpr ?_
  exact ((List.filter_sublist l).map _).nodup h

theorem searchArticlesKeyword_pos {query : String} {articles : List Article}
    (hq : query.trim.isEmpty = false) :
    ∀ r ∈ searchArticlesKeyword query articles, 0 < r.relevanceScore := by
  intro r hr
  unfold searchArticlesKeyword at hr
  rw [if_neg (by simp [hq])] at hr
  have h2 := List.of_mem_filter (sortByScoreDesc_mem.mp hr)
  simpa using h2

theorem searchArticlesKeyword_sorted {query : String} {articles : List Article}
    (hq : query.trim.isEmpty = false) :
    List.Sorted scoreGE (searchArticlesKeyword query articles) := by
  unfold searchArticlesKeyword
  rw [if_neg (by simp [hq])]
  exact sortByScoreDesc_sorted _

theorem searchArticlesKeyword_ids_nodup {query : String} {articles : List Article}
    (hnd : (articleIds articles).Nodup) :
    (resultIds (searchArticlesKeyword query articles)).Nodup := by
  unfold searchArticlesKeyword
  split
  · rw [resultIds_map_score]
    exact hnd
  · exact resultIds_sortFilter_nodup (by rw [resultIds_map_score]; exact hnd) _

theorem find_of_mem_nodup {rs : List SearchResult} {r : SearchResult}
    (hnd : (resultIds rs).Nodup) (hr : r ∈ rs) :
    rs.find? (fun x => x.id == r.id) = some r := by
  induction rs with
  | nil => simp at hr
  | cons a rest ih =>
    unfold resultIds at hnd
    simp only [List.map_cons, List.nodup_cons] at hnd
    rcases List.mem_cons.mp hr with h | h
    · subst h
      simp [List.find?]
    · have hne : (a.id == r.id) = false := by
        simp only [beq_eq_false_iff_ne, ne_eq]
        intro e
        exact hnd.1 (e ▸ List.mem_map_of_mem (fun x => x.id) h)
      simp only [List.find?, hne]
      exact ih hnd.2 h

theorem documentFields_id (a : Article) : (documentFields a).id = a.id := rfl

theorem documentFields_set_embedding (a : Article) (v : List ℚ) :
    documentFields { a with embedding := some v } = documentFields a := rfl

theorem articleIds_of_documentFields {l l' : List Article}
    (h : l.map documentFields = l'.map documentFields) :
    articleIds l = articleIds l' := by
  have h2 := congrArg (List.map (fun a => a.id)) h
  simpa only [articleIds, List.map_map, Function.comp] using h2

theorem scoreArticles_docFields (E : Embedder σ) (sqrt : ℚ → ℚ) (qe : List ℚ) :
    ∀ (arts : List Article) (s : σ),
      (scoreArticles E sqrt qe arts s).2.1.map documentFields
        = arts.map documentFields := by
  intro arts
  induction arts with
  | nil => intro s; rfl
  | cons a rest ih =>
    intro s
    simp only [scoreArticles]
    cases ha : a.embedding with
    | some v =>
      simp only [List.map_cons]
      exact congrArg _ (ih s)
    | none =>
      rcases he : E.embed s (a.title ++ ". " ++ a.description) with ⟨s1, o⟩
      cases o with
      | some v =>
        simp only [List.map_cons, documentFields_set_embedding]
        exact congrArg _ (ih s1)
      | none =>
        simp only [List.map_cons]
        exact congrArg _ (ih s1)

theorem scoreArticles_results_ids (E : Embedder σ) (sqrt : ℚ → ℚ) (qe : List ℚ) :
    ∀ (arts : List Article) (s : σ) (rs : List SearchResult),
      (scoreArticles E sqrt qe arts s).2.2 = some rs →
      resultIds rs = articleIds arts := by
  intro arts
  induction arts with
  | nil =>
    intro s rs h
    simp only [scoreArticles] at h
    cases h
    rfl
  | cons a rest ih =>
    intro s rs h
    simp only [scoreArticles] at h
    cases ha : a.embedding with
    | some v =>
      simp only [ha] at h
      cases hcos : cosineSimilarity sqrt qe v with
      | error e =>
        simp only [hcos] at h
        exact Option.noConfusion h
      | ok sim =>
        simp only [hcos] at h
        cases htl : (scoreArticles E sqrt qe rest s).2.2 with
        | none =>
          simp only [htl] at h
          exact Option.noConfusion h
        | some rs2 =>
          simp only [htl] at h
          cases h
          simp only [resultIds, articleIds, List.map_cons]
          exact congrArg _ (ih s rs2 htl)
    | none =>
      rcases he : E.embed s (a.title ++ ". " ++ a.description) with ⟨s1, o⟩
      cases o with
      | none =>
        simp only [ha, he] at h
        exact Option.noConfusion h
      | some v =>
        simp only [ha, he] at h
        cases hcos : cosineSimilarity sqrt qe v with
        | error e =>
          simp only [hcos] at h
          exact Option.noConfusion h
        | ok sim =>
          simp only [hcos] at h
          cases htl : (scoreArticles E sqrt qe rest s1).2.2 with
          | none =>
            simp only [htl] at h
            exact Option.noConfusion h
          | some rs2 =>
            simp only [htl] at h
            cases h
            simp only [resultIds, articleIds, List.map_cons]
            exact congrArg _ (ih s1 rs2 htl)

theorem cosineSimilarity_ok_of_length {sqrt : ℚ → ℚ} {a b : List ℚ}
    (h : a.length = b.length) :
    ∃ q, cosineSimilarity sqrt a b = .ok q := by
  unfold cosineSimilarity
  rw [if_pos h]
  dsimp only
  split
  · exact ⟨0, rfl⟩
  · exact ⟨_, rfl⟩

theorem scoreArticles_isSome {σ : Type} {E : Embedder σ} {sqrt : ℚ → ℚ}
    {qe : List ℚ} {n : ℕ}
    (hE : ∀ (s1 : σ) (t : String), ∃ v, (E.embed s1 t).2 = some v ∧ v.length = n)
    (hqe : qe.length = n) :
    ∀ (arts : List Article) (s : σ),
      (∀ a ∈ arts, ∀ v, a.embedding = some v → v.length = n) →
      ∃ rs, (scoreArticles E sqrt qe arts s).2.2 = some rs := by
  intro arts
  induction arts with
  | nil =>
    intro s _
    exact ⟨[], rfl⟩
  | cons a rest ih =>
    intro s hc
    simp only [scoreArticles]
    cases ha : a.embedding with
    | some v =>
      have hv : v.length = n := hc a (List.mem_cons_self a rest) v ha
      obtain ⟨q, hq2⟩ := @cosineSimilarity_ok_of_length sqrt qe v (hqe.trans hv.symm)
      obtain ⟨rs2, hrs2⟩ := ih s (fun x hx => hc x (List.mem_cons_of_mem a hx))
      simp only [ha, hq2, hrs2]
      exact ⟨_, rfl⟩
    | none =>
      rcases he : E.embed s (a.title ++ ". " ++ a.description) with ⟨s1, o⟩
      obtain ⟨v, hv, hlen⟩ := hE s (a.title ++ ". " ++ a.description)
      rw [he] at hv
      simp only at hv
      subst hv
      obtain ⟨q, hq2⟩ := @cosineSimilarity_ok_of_length sqrt qe v (hqe.trans hlen.symm)
      obtain ⟨rs2, hrs2⟩ := ih s1 (fun x hx => hc x (List.mem_cons_of_mem a hx))
      simp only [ha, he, hq2, hrs2]
      exact ⟨_, rfl⟩

theorem searchArticlesAI_docFields {σ : Type} (E : Embedder σ) (sqrt : ℚ → ℚ)
    (query : String) (articles : List Article) (s : σ) :
    (searchArticlesAI E sqrt query articles s).articles.map documentFields
      = articles.map documentFields := by
  unfold searchArticlesAI
  split
  · rfl
  · rcases he : E.embed s query with ⟨s1, o⟩
    cases o with
    | none => simp only [he]
    | some qe =>
      have h2 := scoreArticles_docFields E sqrt qe articles s1
      rcases hsc : scoreArticles E sqrt qe articles s1 with ⟨s2, arts2, o2⟩
      rw [hsc] at h2
      cases o2 with
      | none =>
        simp only [he, hsc]
        exact h2
      | some rs =>
        simp only [he, hsc]
        exact h2

theorem searchArticlesAI_ids_nodup {σ : Type} (E : Embedder σ) (sqrt : ℚ → ℚ)
    (query : String) (articles : List Article) (s : σ)
    (hnd : (articleIds articles).Nodup) :
    (resultIds (searchArticlesAI E sqrt query articles s).results).Nodup := by
  unfold searchArticlesAI
  split
  · rw [resultIds_map_score]
    exact hnd
  · rcases he : E.embed s query with ⟨s1, o⟩
    cases o with
    | none =>
      simp only [he]
      exact searchArticlesKeyword_ids_nodup hnd
    | some qe =>
      have hdoc := scoreArticles_docFields E sqrt qe articles s1
      rcases hsc : scoreArticles E sqrt qe articles s1 with ⟨s2, arts2, o2⟩
      rw [hsc] at hdoc
      have harts2 : articleIds arts2 = articleIds articles :=
        articleIds_of_documentFields hdoc
      cases o2 with
      | none =>
        simp only [he, hsc]
        exact searchArticlesKeyword_ids_nodup (by rw [harts2]; exact hnd)
      | some rs =>
        simp only [he, hsc]
        have hrs : resultIds rs = articleIds articles :=
          scoreArticles_results_ids E sqrt qe articles s1 rs (by rw [hsc])
        exact resultIds_sortFilter_nodup (by rw [hrs]; exact hnd) _

theorem searchArticlesAI_pos {σ : Type} {E : Embedder σ} {sqrt : ℚ → ℚ}
    {query : String} {articles : List Article} {s : σ}
    (hq : query.trim.isEmpty = false) :
    ∀ r ∈ (searchArticlesAI E sqrt query articles s).results,
      0 < r.relevanceScore := by
  intro r hr
  unfold searchArticlesAI at hr
  rw [if_neg (by simp [hq])] at hr
  rcases he : E.embed s query with ⟨s1, o⟩
  cases o with
  | none =>
    simp only [he] at hr
    exact searchArticlesKeyword_pos hq r hr
  | some qe =>
    rcases hsc : scoreArticles E sqrt qe articles s1 with ⟨s2, arts2, o2⟩
    cases o2 with
    | none =>
      simp only [he, hsc] at hr
      exact searchArticlesKeyword_pos hq r hr
    | some rs =>
      simp only [he, hsc] at hr
      have h10 := List.of_mem_filter (sortByScoreDesc_mem.mp hr)
      have h10b : (10 : ℚ) < r.relevanceScore := by simpa using h10
      linarith

theorem searchArticlesAI_gt10 {σ : Type} {E : Embedder σ} {sqrt : ℚ → ℚ}
    {query : String} {articles : List Article} {s : σ} {n : ℕ}
    (hE : ∀ (s1 : σ) (t : String), ∃ v, (E.embed s1 t).2 = some v ∧ v.length = n)
    (hc : ∀ a ∈ articles, ∀ v, a.embedding = some v → v.length = n)
    (hq : query.trim.isEmpty = false) :
    ∀ r ∈ (searchArticlesAI E sqrt query articles s).results,
      10 < r.relevanceScore := by
  intro r hr
  unfold searchArticlesAI at hr
  rw [if_neg (by simp [hq])] at hr
  rcases he : E.embed s query with ⟨s1, o⟩
  obtain ⟨v, hv, hlen⟩ := hE s query
  rw [he] at hv
  simp only at hv
  subst hv
  obtain ⟨rs, hrs⟩ := scoreArticles_isSome hE hlen articles s1 hc
  rcases hsc : scoreArticles E sqrt v articles s1 with ⟨s2, arts2, o2⟩
  rw [hsc] at hrs
  simp only at hrs
  subst hrs
  simp only [he, hsc] at hr
  have h10 := List.of_mem_filter (sortByScoreDesc_mem.mp hr)
  simpa using h10

theorem foldl_fuseSemantic_eq :
    ∀ (ai : List SearchResult) (acc : List (ℤ × SearchResult)),
      (resultIds ai).Nodup →
      (∀ p ∈ acc, ∀ r ∈ ai, p.1 ≠ r.id) →
      ai.foldl fuseSemantic acc
        = acc ++ ai.map (fun r =>
            (r.id, { r with relevanceScore := r.relevanceScore * (7/10) })) := by
  intro ai
  induction ai with
  | nil =>
    intro acc _ _
    simp
  | cons r rest ih =>
    intro acc hnd hdisj
    simp only [List.foldl_cons]
    have hany : acc.any (fun p => p.1 == r.id) = false := by
      rw [List.any_eq_false]
      intro p hp
      simp only [beq_iff_eq]
      exact hdisj p hp r (List.mem_cons_self r rest)
    have hstep : fuseSemantic acc r
        = acc ++ [(r.id, { r with relevanceScore := r.relevanceScore * (7/10) })] := by
      unfold fuseSemantic mapSet
      rw [if_neg (by simp [hany])]
    rw [hstep]
    unfold resultIds at hnd
    simp only [List.map_cons, List.nodup_cons] at hnd
    have hdisj2 : ∀ p ∈ acc ++ [(r.id, { r with relevanceScore := r.relevanceScore * (7/10) })],
        ∀ r2 ∈ rest, p.1 ≠ r2.id := by
      intro p hp r2 hr2
      rcases List.mem_append.mp hp with h | h
      · exact hdisj p h r2 (List.mem_cons_of_mem r hr2)
      · simp only [List.mem_singleton] at h
        subst h
        dsimp only
        intro e
        exact hnd.1 (e ▸ List.mem_map_of_mem _ hr2)
    have hih := ih (acc ++ [(r.id, { r with relevanceScore := r.relevanceScore * (7/10) })])
      hnd.2 hdisj2
    rw [hih]
    simp [List.append_assoc]

theorem foldl_fuseSemantic_pos :
    ∀ (ai : List SearchResult) (acc : List (ℤ × SearchResult)),
      (∀ r ∈ ai, 0 < r.relevanceScore) →
      (∀ p ∈ acc, 0 < p.2.relevanceScore) →
      ∀ p ∈ ai.foldl fuseSemantic acc, 0 < p.2.relevanceScore := by
  intro ai
  induction ai with
  | nil =>
    intro acc _ hacc
    simpa using hacc
  | cons r rest ih =>
    intro acc hai hacc
    simp only [List.foldl_cons]
    refine ih (fuseSemantic acc r) (fun x hx => hai x (List.mem_cons_of_mem r hx)) ?_
    intro p hp
    unfold fuseSemantic mapSet at hp
    have hrpos : 0 < r.relevanceScore * (7/10) := by
      have := hai r (List.mem_cons_self r rest)
      positivity
    split at hp
    · rcases List.mem_map.mp hp with ⟨q, hq, hqe⟩
      by_cases hid : (q.1 == r.id) = true
      · simp only [hid, if_true] at hqe
        rw [← hqe]
        exact hrpos
      · simp only [hid] at hqe
        simp only [Bool.false_eq_true, if_false] at hqe
        rw [← hqe]
        exact hacc q hq
    · rcases List.mem_append.mp hp with h | h
      · exact hacc p h
      · simp only [List.mem_singleton] at h
        subst h
        exact hrpos

theorem foldl_fuseKeyword_pos :
    ∀ (kw : List SearchResult) (m : List (ℤ × SearchResult)),
      (∀ r ∈ kw, 0 < r.relevanceScore) →
      (∀ p ∈ m, 0 < p.2.relevanceScore) →
      ∀ p ∈ kw.foldl fuseKeyword m, 0 < p.2.relevanceScore := by
  intro kw
  induction kw with
  | nil =>
    intro m _ hm
    simpa using hm
  | cons r rest ih =>
    intro m hkw hm
    simp only [List.foldl_cons]
    refine ih (fuseKeyword m r) (fun x hx => hkw x (List.mem_cons_of_mem r hx)) ?_
    intro p hp
    unfold fuseKeyword at hp
    have hrpos : 0 < r.relevanceScore * (3/10) := by
      have := hkw r (List.mem_cons_self r rest)
      positivity
    split at hp
    · rcases List.mem_map.mp hp with ⟨q, hq, hqe⟩
      by_cases hid : (q.1 == r.id) = true
      · simp only [hid, if_true] at hqe
        rw [← hqe]
        have := hm q hq
        dsimp only
        linarith
      · simp only [hid] at hqe
        simp only [Bool.false_eq_true, if_false] at hqe
        rw [← hqe]
        exact hm q hq
    · rcases List.mem_append.mp hp with h | h
      · exact hm p h
      · simp only [List.mem_singleton] at h
        subst h
        exact hrpos

theorem fuseResults_pos {ai kw : List SearchResult}
    (hai : ∀ r ∈ ai, 0 < r.relevanceScore)
    (hkw : ∀ r ∈ kw, 0 < r.relevanceScore) :
    ∀ r ∈ fuseResults ai kw, 0 < r.relevanceScore := by
  intro r hr
  unfold fuseResults at hr
  rcases List.mem_map.mp hr with ⟨p, hp, hpe⟩
  have := foldl_fuseKeyword_pos kw (ai.foldl fuseSemantic []) hkw
    (foldl_fuseSemantic_pos ai [] hai (by simp)) p hp
  rw [← hpe]
  exact this

theorem foldl_fuseKeyword_eq :
    ∀ (kw : List SearchResult) (m : List (ℤ × SearchResult)),
      (resultIds kw).Nodup →
      kw.foldl fuseKeyword m
        = m.map (fun p =>
            match kw.find? (fun x => x.id == p.1) with
            | some x =>
              (p.1, { p.2 with relevanceScore := p.2.relevanceScore + x.relevanceScore * (3/10) })
            | none => p)
          ++ (kw.filter (fun x => !(m.any (fun p => p.1 == x.id)))).map
              (fun x => (x.id, { x with relevanceScore := x.relevanceScore * (3/10) })) := by
  intro kw
  induction kw with
  | nil =>
    intro m _
    simp [List.find?]
  | cons r rest ih =>
    intro m hnd
    unfold resultIds at hnd
    simp only [List.map_cons, List.nodup_cons] at hnd
    have hfind_rest_none : ∀ i : ℤ, i = r.id → rest.find? (fun x => x.id == i) = none := by
      intro i hi
      subst hi
      rw [List.find?_eq_none]
      intro x hx
      simp only [beq_iff_eq]
      intro e
      exact hnd.1 (e ▸ List.mem_map_of_mem (fun y => y.id) hx)
    simp only [List.foldl_cons]
    by_cases hmem : m.any (fun p => p.1 == r.id) = true
    · have hstep : fuseKeyword m r
          = m.map (fun p => if p.1 == r.id then
              (p.1, { p.2 with relevanceScore := p.2.relevanceScore + r.relevanceScore * (3/10) })
            else p) := by
        unfold fuseKeyword
        rw [if_pos hmem]
      rw [hstep, ih _ hnd.2]
      congr 1
      · rw [List.map_map]
        apply List.map_congr_left
        intro p hp
        simp only [Function.comp]
        by_cases hid : (p.1 == r.id) = true
        · have hid2 : p.1 = r.id := by simpa using hid
          rw [if_pos hid]
          dsimp only
          rw [hfind_rest_none p.1 hid2]
          have hhead : (r.id == p.1) = true := by simp [hid2]
          simp only [List.find?, hhead]
        · rw [if_neg (by simp [hid])]
          have hhead : (r.id == p.1) = false := by
            simp only [beq_eq_false_iff_ne, ne_eq]
            intro e
            exact hid (by simp [e.symm])
          simp only [List.find?, hhead]
      · have hcr : (!(m.any (fun p => p.1 == r.id))) = false := by simp [hmem]
        rw [List.filter_cons_of_neg (by simp [hmem])]
        apply congrArg
        apply List.filter_congr
        intro x hx
        rw [List.any_map]
        have hfun : ((fun p : ℤ × SearchResult => p.1 == x.id) ∘ (fun p =>
            if p.1 == r.id then
              (p.1, { p.2 with relevanceScore := p.2.relevanceScore + r.relevanceScore * (3/10) })
            else p)) = (fun p : ℤ × SearchResult => p.1 == x.id) := by
          funext p
          simp only [Function.comp]
          by_cases hid : (p.1 == r.id) = true
          · rw [if_pos hid]
          · rw [if_neg (by simp [hid])]
        rw [hfun]
    · have hstep : fuseKeyword m r
          = m ++ [(r.id, { r with relevanceScore := r.relevanceScore * (3/10) })] := by
        unfold fuseKeyword
        rw [if_neg (by simp [hmem])]
      rw [hstep, ih _ hnd.2]
      have hmap : (m ++ [(r.id, { r with relevanceScore := r.relevanceScore * (3/10) })]).map
          (fun p : ℤ × SearchResult =>
            match rest.find? (fun x : SearchResult => x.id == p.1) with
            | some x =>
              (p.1, { p.2 with relevanceScore := p.2.relevanceScore + x.relevanceScore * (3/10) })
            | none => p)
          = m.map (fun p : ℤ × SearchResult =>
              match (r :: rest).find? (fun x : SearchResult => x.id == p.1) with
              | some x =>
                (p.1, { p.2 with relevanceScore := p.2.relevanceScore + x.relevanceScore * (3/10) })
              | none => p)
            ++ [(r.id, { r with relevanceScore := r.relevanceScore * (3/10) })] := by
        rw [List.map_append]
        congr 1
        · apply List.map_congr_left
          intro p hp
          have hne : (r.id == p.1) = false := by
            simp only [beq_eq_false_iff_ne, ne_eq]
            intro e
            have hmem2 : m.any (fun q => q.1 == r.id) = true :=
              List.any_eq_true.mpr ⟨p, hp, by simp [e.symm]⟩
            exact hmem hmem2
          simp only [List.find?, hne]
        · simp [hfind_rest_none _ rfl]
      rw [hmap]
      have hfilter : rest.filter (fun x =>
            !((m ++ [(r.id, { r with relevanceScore := r.relevanceScore * (3/10) })]).any
              (fun p => p.1 == x.id)))
          = rest.filter (fun x => !(m.any (fun p => p.1 == x.id))) := by
        apply List.filter_congr
        intro x hx
        rw [List.any_append]
        have hone : ([(r.id, { r with relevanceScore := r.relevanceScore * (3/10) })].any
            (fun p => p.1 == x.id)) = false := by
          simp only [List.any_cons, List.any_nil, Bool.or_false]
          simp only [beq_eq_false_iff_ne, ne_eq]
          intro e
          exact hnd.1 (e ▸ List.mem_map_of_mem (fun y => y.id) hx)
        rw [hone, Bool.or_false]
      rw [hfilter]
      have hcons : (r :: rest).filter (fun x => !(m.any (fun p => p.1 == x.id)))
          = r :: rest.filter (fun x => !(m.any (fun p => p.1 == x.id))) :=
        List.filter_cons_of_pos (by simp [hmem])
      rw [hcons]
      simp [List.append_assoc]

theorem find_eq_none_of_not_any {l : List SearchResult} {i : ℤ}
    (h : ((l.map (fun r =>
        (r.id, { r with relevanceScore := r.relevanceScore * (7/10) }))).any
          (fun p => p.1 == i)) = false) :
    l.find? (fun x => x.id == i) = none := by
  rw [List.find?_eq_none]
  intro x hx
  rw [List.any_eq_false] at h
  exact h _ (List.mem_map_of_mem _ hx)

theorem fuseResults_score {ai kw : List SearchResult}
    (hai : (resultIds ai).Nodup) (hkw : (resultIds kw).Nodup) :
    ∀ r ∈ fuseResults ai kw,
      r.relevanceScore = scoreOf ai r.id * (7/10) + scoreOf kw r.id * (3/10) := by
  intro r hr
  unfold fuseResults at hr
  rw [foldl_fuseSemantic_eq ai [] hai (by simp), List.nil_append,
    foldl_fuseKeyword_eq kw _ hkw, List.map_append, List.map_map, List.map_map] at hr
  rcases List.mem_append.mp hr with h | h
  · rcases List.mem_map.mp h with ⟨r0, hr0, he⟩
    have hai0 : scoreOf ai r0.id = r0.relevanceScore := by
      unfold scoreOf
      rw [find_of_mem_nodup hai hr0]
    rw [← he]
    simp only [Function.comp]
    cases hf : kw.find? (fun x => x.id == r0.id) with
    | some rk =>
      have hkw0 : scoreOf kw r0.id = rk.relevanceScore := by
        unfold scoreOf
        rw [hf]
      dsimp only
      rw [hai0, hkw0]
    | none =>
      have hkw0 : scoreOf kw r0.id = 0 := by
        unfold scoreOf
        rw [hf]
      dsimp only
      rw [hai0, hkw0]
      ring
  · rcases List.mem_map.mp h with ⟨p2, hp2, hpe⟩
    rcases List.mem_map.mp hp2 with ⟨r2, hr2, he2⟩
    have hmem2 := List.mem_of_mem_filter hr2
    have hcond := List.of_mem_filter hr2
    have hain : scoreOf ai r2.id = 0 := by
      unfold scoreOf
      rw [find_eq_none_of_not_any (by simpa using hcond)]
    have hkw2 : scoreOf kw r2.id = r2.relevanceScore := by
      unfold scoreOf
      rw [find_of_mem_nodup hkw hmem2]
    rw [← hpe, ← he2]
    dsimp only
    rw [hain, hkw2]
    ring

theorem fuseResults_covers {ai kw : List SearchResult}
    (hai : (resultIds ai).Nodup) (hkw : (resultIds kw).Nodup) :
    ∀ i : ℤ, ((∃ x ∈ ai, x.id = i) ∨ (∃ x ∈ kw, x.id = i)) →
      ∃ r ∈ fuseResults ai kw, r.id = i := by
  have main : ∀ x ∈ ai, ∃ r ∈ fuseResults ai kw, r.id = x.id := by
    intro x hx
    unfold fuseResults
    rw [foldl_fuseSemantic_eq ai [] hai (by simp), List.nil_append,
      foldl_fuseKeyword_eq kw _ hkw, List.map_append, List.map_map, List.map_map]
    refine ⟨_, List.mem_append_left _
      (List.mem_map_of_mem (_ ∘ _) hx), ?_⟩
    simp only [Function.comp]
    cases hf : kw.find? (fun y => y.id == x.id) with
    | some rk => rfl
    | none => rfl
  intro i hi
  rcases hi with ⟨x, hx, hxi⟩ | ⟨x, hx, hxi⟩
  · subst hxi
    exact main x hx
  · subst hxi
    by_cases hany : ((ai.map (fun r =>
        (r.id, { r with relevanceScore := r.relevanceScore * (7/10) }))).any
          (fun p => p.1 == x.id)) = true
    · rcases List.any_eq_true.mp hany with ⟨q, hq, hqi⟩
      rcases List.mem_map.mp hq with ⟨x0, hx0, he⟩
      have : x0.id = x.id := by
        rw [← he] at hqi
        simpa using hqi
      rw [← this]
      exact main x0 hx0
    · unfold fuseResults
      rw [foldl_fuseSemantic_eq ai [] hai (by simp), List.nil_append,
        foldl_fuseKeyword_eq kw _ hkw, List.map_append, List.map_map, List.map_map]
      have hany2 : ((ai.map (fun r =>
          (r.id, { r with relevanceScore := r.relevanceScore * (7/10) }))).any
            (fun p => p.1 == x.id)) = false := by
        cases hb : ((ai.map (fun r =>
            (r.id, { r with relevanceScore := r.relevanceScore * (7/10) }))).any
              (fun p => p.1 == x.id)) with
        | false => rfl
        | true => exact absurd hb hany
      refine ⟨_, List.mem_append_right _ (List.mem_map_of_mem _
        (List.mem_map_of_mem _ (List.mem_filter.mpr ⟨hx, by simp [hany2]⟩))), ?_⟩
      rfl

/-! ## C10: every non-empty-query hybrid result has a positive score -/

/-- C10: for every non-empty query (and any embedder behaviour), every
result of `searchArticlesHybrid` has `relevanceScore > 0`: semantic-stage
entries carry a score > 10 before the 0.7 weighting and lexical-stage
entries a score > 0 before the 0.3 weighting, so a zero-score document
never appears in the non-empty-query output. -/
theorem claim_C10_positive_scores {σ : Type} (E : Embedder σ) (sqrt : ℚ → ℚ)
    (query : String) (articles : List Article) (s : σ)
    (hq : query.trim.isEmpty = false) :
    ∀ r ∈ (searchArticlesHybrid E sqrt query articles s).results,
      0 < r.relevanceScore := by
  intro r hr
  unfold searchArticlesHybrid at hr
  rw [if_neg (by simp [hq])] at hr
  exact fuseResults_pos (searchArticlesAI_pos hq) (searchArticlesKeyword_pos hq) r
    (sortByScoreDesc_mem.mp hr)

/-- Witness for C10: the concrete run over `[artA, artB]` with query
`"history zqx"`. -/
theorem claim_C10_witness :
    ("history zqx".trim.isEmpty = false)
      ∧ ∀ r ∈ (searchArticlesHybrid embAB ratSqrt "history zqx" [artA, artB] ()).results,
          0 < r.relevanceScore :=
  ⟨by with_unfolding_all decide,
    claim_C10_positive_scores embAB ratSqrt "history zqx" [artA, artB] ()
      (by with_unfolding_all decide)⟩

/-! ## C2: the 70/30 fusion formula -/

/-- C2: for every non-empty query over a corpus with distinct ids, when the
query embedding succeeds, each hybrid result's `relevanceScore` equals
semanticScore × 0.7 + lexicalScore × 0.3, where the scores are the entries
of the semantic family (`searchArticlesAI`) and the lexical family
(`searchArticlesKeyword`) and an absent family contributes 0; a document
present in only one family still appears in the fused output (fusion is
not gated on both families).  In particular semanticScore 80 with
lexicalScore 20 fuses to 62 (see the witness). -/
theorem claim_C2_fusion_formula {σ : Type} (E : Embedder σ) (sqrt : ℚ → ℚ)
    (query : String) (articles : List Article) (s : σ)
    (hq : query.trim.isEmpty = false)
    (hnd : (articleIds articles).Nodup)
    (hqe : ∃ v, (E.embed s query).2 = some v) :
    (∀ r ∈ (searchArticlesHybrid E sqrt query articles s).results,
        r.relevanceScore
          = scoreOf (searchArticlesAI E sqrt query articles s).results r.id * (7/10)
            + scoreOf (searchArticlesKeyword query articles) r.id * (3/10))
      ∧ (∀ i : ℤ,
          ((∃ x ∈ (searchArticlesAI E sqrt query articles s).results, x.id = i)
            ∨ (∃ x ∈ searchArticlesKeyword query articles, x.id = i)) →
          ∃ r ∈ (searchArticlesHybrid E sqrt query articles s).results, r.id = i) := by
  clear hqe
  have haind := searchArticlesAI_ids_nodup E sqrt query articles s hnd
  have hkwnd := @searchArticlesKeyword_ids_nodup query articles hnd
  constructor
  · intro r hr
    unfold searchArticlesHybrid at hr
    rw [if_neg (by simp [hq])] at hr
    exact fuseResults_score haind hkwnd r (sortByScoreDesc_mem.mp hr)
  · intro i hi
    unfold searchArticlesHybrid
    rw [if_neg (by simp [hq])]
    obtain ⟨r, hrm, hri⟩ := fuseResults_covers haind hkwnd i hi
    exact ⟨r, sortByScoreDesc_mem.mpr hrm, hri⟩

/-- Witness for C2: over the corpus `[artC]` with query `"history zzz"`,
the semantic score is 80, the lexical score 20, and the fused output is
exactly `[(3, 62)]` — the 80 × 0.7 + 20 × 0.3 = 62 example. -/
theorem claim_C2_witness :
    ("history zzz".trim.isEmpty = false)
      ∧ (articleIds [artC]).Nodup
      ∧ (∃ v, (embC.embed () "history zzz").2 = some v)
      ∧ ((∀ r ∈ (searchArticlesHybrid embC ratSqrt "history zzz" [artC] ()).results,
            r.relevanceScore
              = scoreOf (searchArticlesAI embC ratSqrt "history zzz" [artC] ()).results
                  r.id * (7/10)
                + scoreOf (searchArticlesKeyword "history zzz" [artC]) r.id * (3/10))
          ∧ (∀ i : ℤ,
              ((∃ x ∈ (searchArticlesAI embC ratSqrt "history zzz" [artC] ()).results, x.id = i)
                ∨ (∃ x ∈ searchArticlesKeyword "history zzz" [artC], x.id = i)) →
              ∃ r ∈ (searchArticlesHybrid embC ratSqrt "history zzz" [artC] ()).results,
                r.id = i))
      ∧ ((searchArticlesHybrid embC ratSqrt "history zzz" [artC] ()).results.map
            (fun r => (r.id, r.relevanceScore)) = [(3, 62)]
          ∧ (searchArticlesAI embC ratSqrt "history zzz" [artC] ()).results.map
              (fun r => (r.id, r.relevanceScore)) = [(3, 80)]
          ∧ (searchArticlesKeyword "history zzz" [artC]).map
              (fun r => (r.id, r.relevanceScore)) = [(3, 20)]) :=
  ⟨by with_unfolding_all decide,
    by with_unfolding_all decide,
    ⟨[1, 0], by with_unfolding_all decide⟩,
    claim_C2_fusion_formula embC ratSqrt "history zzz" [artC] ()
      (by with_unfolding_all decide) (by with_unfolding_all decide)
      ⟨[1, 0], by with_unfolding_all decide⟩,
    by with_unfolding_all decide, by with_unfolding_all decide,
    by with_unfolding_all decide⟩

/-! ## C8: semantic pre-filter at 10, no threshold at fusion -/

/-- C8: when every embedding succeeds (fixed dimension) and the query is
non-empty, the pure-semantic intermediate stage (`searchArticlesAI`)
discards every document with semanticScore ≤ 10 — all its results exceed
10 — while the fusion stage applies no score threshold: every document
kept by the semantic stage or by the lexical stage appears in the fused
output of `searchArticlesHybrid`, regardless of its fused score. -/
theorem claim_C8_prefilter_and_no_fusion_threshold {σ : Type} (E : Embedder σ)
    (sqrt : ℚ → ℚ) (query : String) (articles : List Article) (s : σ) {n : ℕ}
    (hE : ∀ (s1 : σ) (t : String), ∃ v, (E.embed s1 t).2 = some v ∧ v.length = n)
    (hc : ∀ a ∈ articles, ∀ v, a.embedding = some v → v.length = n)
    (hq : query.trim.isEmpty = false)
    (hnd : (articleIds articles).Nodup) :
    (∀ r ∈ (searchArticlesAI E sqrt query articles s).results, 10 < r.relevanceScore)
      ∧ (∀ i : ℤ,
          ((∃ x ∈ (searchArticlesAI E sqrt query articles s).results, x.id = i)
            ∨ (∃ x ∈ searchArticlesKeyword query articles, x.id = i)) →
          ∃ r ∈ (searchArticlesHybrid E sqrt query articles s).results, r.id = i) := by
  refine ⟨searchArticlesAI_gt10 hE hc hq, ?_⟩
  intro i hi
  unfold searchArticlesHybrid
  rw [if_neg (by simp [hq])]
  obtain ⟨r, hrm, hri⟩ := fuseResults_covers
    (searchArticlesAI_ids_nodup E sqrt query articles s hnd)
    (@searchArticlesKeyword_ids_nodup query articles hnd) i hi
  exact ⟨r, sortByScoreDesc_mem.mpr hrm, hri⟩

/-- Witness for C8: the all-success, 5-dimensional embedder `embAB` over
`[artA, artB]` with query `"history zqx"`. -/
theorem claim_C8_witness :
    (∀ (s1 : Unit) (t : String), ∃ v, (embAB.embed s1 t).2 = some v ∧ v.length = 5)
      ∧ (∀ a ∈ [artA, artB], ∀ v, a.embedding = some v → v.length = 5)
      ∧ ("history zqx".trim.isEmpty = false)
      ∧ (articleIds [artA, artB]).Nodup
      ∧ ((∀ r ∈ (searchArticlesAI embAB ratSqrt "history zqx" [artA, artB] ()).results,
            10 < r.relevanceScore)
        ∧ (∀ i : ℤ,
            ((∃ x ∈ (searchArticlesAI embAB ratSqrt "history zqx" [artA, artB] ()).results,
                x.id = i)
              ∨ (∃ x ∈ searchArticlesKeyword "history zqx" [artA, artB], x.id = i)) →
            ∃ r ∈ (searchArticlesHybrid embAB ratSqrt "history zqx" [artA, artB] ()).results,
              r.id = i)) := by
  have hE : ∀ (s1 : Unit) (t : String), ∃ v, (embAB.embed s1 t).2 = some v ∧ v.length = 5 := by
    intro s1 t
    refine ⟨_, rfl, ?_⟩
    split
    · rfl
    · split
      · rfl
      · rfl
  have hc : ∀ a ∈ [artA, artB], ∀ v, a.embedding = some v → v.length = 5 := by
    intro a ha v hv
    rcases List.mem_cons.mp ha with rfl | ha2
    · exact absurd hv (by simp [artA])
    · rcases List.mem_cons.mp ha2 with rfl | ha3
      · exact absurd hv (by simp [artB])
      · simp at ha3
  exact ⟨hE, hc, by with_unfolding_all decide, by with_unfolding_all decide,
    claim_C8_prefilter_and_no_fusion_threshold embAB ratSqrt "history zqx" [artA, artB] ()
      hE hc (by with_unfolding_all decide) (by with_unfolding_all decide)⟩

/-! ## C1: total embedding failure degrades to pure lexical search -/

theorem fuse_self (K : List SearchResult) (hnd : (resultIds K).Nodup) :
    fuseResults K K = K := by
  unfold fuseResults
  rw [foldl_fuseSemantic_eq K [] hnd (by simp), List.nil_append,
    foldl_fuseKeyword_eq K _ hnd]
  have hfilter : K.filter (fun x =>
      !((K.map (fun r =>
          (r.id, { r with relevanceScore := r.relevanceScore * (7/10) }))).any
        (fun p => p.1 == x.id))) = [] := by
    rw [List.filter_eq_nil_iff]
    intro x hx
    have hany : ((K.map (fun r =>
        (r.id, { r with relevanceScore := r.relevanceScore * (7/10) }))).any
          (fun p => p.1 == x.id)) = true :=
      List.any_eq_true.mpr ⟨(x.id, { x with relevanceScore := x.relevanceScore * (7/10) }),
        List.mem_map_of_mem _ hx, by simp⟩
    simp [hany]
  rw [hfilter, List.map_nil, List.append_nil, List.map_map, List.map_map]
  conv_rhs => rw [← List.map_id K]
  apply List.map_congr_left
  intro r0 hr0
  simp only [Function.comp]
  rw [find_of_mem_nodup hnd hr0]
  dsimp only [id]
  have harith : r0.relevanceScore * (7/10) + r0.relevanceScore * (3/10)
      = r0.relevanceScore := by ring
  rw [harith]

/-- C1: if every call of the embedding provider fails, the hybrid search on
a non-empty query returns — without throwing (the model is a total
function; every failure is caught internally) — exactly the pure-lexical
result set: the documents with `keywordScore > 0`, each scored by its
lexical score, stably sorted descending. -/
theorem claim_C1_total_failure_lexical_fallback {σ : Type} (E : Embedder σ)
    (sqrt : ℚ → ℚ) (query : String) (articles : List Article) (s : σ)
    (hfail : ∀ (s1 : σ) (t : String), (E.embed s1 t).2 = none)
    (hq : query.trim.isEmpty = false)
    (hnd : (articleIds articles).Nodup) :
    (searchArticlesHybrid E sqrt query articles s).results
        = searchArticlesKeyword query articles
      ∧ searchArticlesKeyword query articles
        = sortByScoreDesc ((articles.map (fun article =>
            { toArticle := article, relevanceScore := keywordScore query article })).filter
              (fun r => decide (0 < r.relevanceScore))) := by
  constructor
  · have hres : (searchArticlesAI E sqrt query articles s).results
        = searchArticlesKeyword query articles := by
      unfold searchArticlesAI
      rw [if_neg (by simp [hq])]
      rcases hE2 : E.embed s query with ⟨s1, o⟩
      have h2 := hfail s query
      rw [hE2] at h2
      simp only at h2
      subst h2
      rfl
    unfold searchArticlesHybrid
    rw [if_neg (by simp [hq])]
    dsimp only
    rw [hres, fuse_self _ (searchArticlesKeyword_ids_nodup hnd)]
    exact (searchArticlesKeyword_sorted hq).insertionSort_eq
  · unfold searchArticlesKeyword
    rw [if_neg (by simp [hq])]

/-- Witness for C1: the always-failing embedder over `[artA, artB]` with
query `"history zqx"`; the fallback output is the lexical list `[artA]`
with score 35. -/
theorem claim_C1_witness :
    (∀ (s1 : Unit) (t : String), (embFail.embed s1 t).2 = none)
      ∧ ("history zqx".trim.isEmpty = false)
      ∧ (articleIds [artA, artB]).Nodup
      ∧ (((searchArticlesHybrid embFail ratSqrt "history zqx" [artA, artB] ()).results
            = searchArticlesKeyword "history zqx" [artA, artB]
          ∧ searchArticlesKeyword "history zqx" [artA, artB]
            = sortByScoreDesc (([artA, artB].map (fun article =>
                { toArticle := article,
                  relevanceScore := keywordScore "history zqx" article })).filter
                  (fun r => decide (0 < r.relevanceScore))))
        ∧ (searchArticlesHybrid embFail ratSqrt "history zqx" [artA, artB] ()).results.map
            (fun r => (r.id, r.relevanceScore)) = [(1, 35)]) :=
  ⟨fun _ _ => rfl,
    by with_unfolding_all decide,
    by with_unfolding_all decide,
    claim_C1_total_failure_lexical_fallback embFail ratSqrt "history zqx" [artA, artB] ()
      (fun _ _ => rfl) (by with_unfolding_all decide) (by with_unfolding_all decide),
    by with_unfolding_all decide⟩

/-! ## C3: descending sort holds, but ties follow fusion order, not corpus order -/

/-- Counterexample to C3 as stated: over the corpus `[artA, artB]` (ids
`[1, 2]`) with query `"history zqx"`, both hybrid results tie at fused
score 28, yet the output lists id 2 before id 1 — ties follow the fused
map's insertion order (semantic ranking first), not the original corpus
order. -/
theorem claim_C3_counterexample :
    ((searchArticlesHybrid embAB ratSqrt "history zqx" [artA, artB] ()).results.map
        (fun r => (r.id, r.relevanceScore)) = [(2, 28), (1, 28)])
      ∧ articleIds [artA, artB] = [1, 2]
      ∧ ¬ (List.Pairwise (fun a b : SearchResult =>
            a.relevanceScore = b.relevanceScore →
              (articleIds [artA, artB]).indexOf a.id
                ≤ (articleIds [artA, artB]).indexOf b.id)
          (searchArticlesHybrid embAB ratSqrt "history zqx" [artA, artB] ()).results) :=
  ⟨by with_unfolding_all decide, by with_unfolding_all decide,
    by with_unfolding_all decide⟩

/-- C3 as amended: for every non-empty query the hybrid result sequence is
sorted descending by fused score, and any two results with equal fused
score appear in the order of the pre-sort fused sequence (the combined
map's values: semantic results in semantic order first, then keyword-only
results) — the sort is stable with respect to that sequence, though not
with respect to the original corpus order. -/
theorem claim_C3_amended_sorted_and_stable {σ : Type} (E : Embedder σ)
    (sqrt : ℚ → ℚ) (query : String) (articles : List Article) (s : σ)
    (hq : query.trim.isEmpty = false) :
    List.Sorted scoreGE (searchArticlesHybrid E sqrt query articles s).results
      ∧ (∀ a b : SearchResult,
          List.Sublist [a, b]
            (fuseResults (searchArticlesAI E sqrt query articles s).results
              (searchArticlesKeyword query articles)) →
          a.relevanceScore = b.relevanceScore →
          List.Sublist [a, b] (searchArticlesHybrid E sqrt query articles s).results) := by
  constructor
  · unfold searchArticlesHybrid
    rw [if_neg (by simp [hq])]
    exact sortByScoreDesc_sorted _
  · intro a b hsub heq
    unfold searchArticlesHybrid
    rw [if_neg (by simp [hq])]
    dsimp only
    unfold sortByScoreDesc
    exact List.sublist_insertionSort
      (List.pairwise_pair.mpr (le_of_eq heq.symm)) hsub

/-- Witness for the amended C3 at the concrete tie run. -/
theorem claim_C3_witness :
    ("history zqx".trim.isEmpty = false)
      ∧ (List.Sorted scoreGE
          (searchArticlesHybrid embAB ratSqrt "history zqx" [artA, artB] ()).results
        ∧ (∀ a b : SearchResult,
            List.Sublist [a, b]
              (fuseResults
                (searchArticlesAI embAB ratSqrt "history zqx" [artA, artB] ()).results
                (searchArticlesKeyword "history zqx" [artA, artB])) →
            a.relevanceScore = b.relevanceScore →
            List.Sublist [a, b]
              (searchArticlesHybrid embAB ratSqrt "history zqx" [artA, artB] ()).results)) :=
  ⟨by with_unfolding_all decide,
    claim_C3_amended_sorted_and_stable embAB ratSqrt "history zqx" [artA, artB] ()
      (by with_unfolding_all decide)⟩

/-! ## C4: the searches do write one field — the embedding cache slot -/

/-- Counterexample to C4 as stated: on a cache miss `searchArticlesAI`
writes the `embedding` field of an input corpus record in place
(`article.embedding = await embeddingService.embed(...)`), so the corpus
does not come back unchanged. -/
theorem claim_C4_counterexample :
    ¬ ((searchArticlesAI embAB ratSqrt "history zqx" [artA] ()).articles = [artA]) := by
  with_unfolding_all decide

/-- C4 as amended: the search operations never write any of the
specification's `Document` fields (id, title, url, date, type,
description, tags, keywords) of the input corpus — only the `embedding`
cache slot may be filled in.  (`searchArticlesKeyword` is a pure function
of the corpus and cannot write at all, which the model reflects by not
returning a corpus.) -/
theorem claim_C4_amended_document_fields_read_only {σ : Type} (E : Embedder σ)
    (sqrt : ℚ → ℚ) (query : String) (articles : List Article) (s : σ) :
    ((searchArticlesHybrid E sqrt query articles s).articles.map documentFields
        = articles.map documentFields)
      ∧ ((searchArticlesAI E sqrt query articles s).articles.map documentFields
        = articles.map documentFields) := by
  refine ⟨?_, searchArticlesAI_docFields E sqrt query articles s⟩
  unfold searchArticlesHybrid
  split
  · rfl
  · dsimp only
    exact searchArticlesAI_docFields E sqrt query articles s

/-! ## C5: the per-document vector cache prevents recomputation -/

theorem scoreArticles_embLog_state (f : String → List ℚ) (sqrt : ℚ → ℚ) (qe : List ℚ) :
    ∀ (arts : List Article) (log : List String),
      (scoreArticles (embLog f) sqrt qe arts log).1
          = log ++ (arts.filter (fun a => a.embedding.isNone)).map articleText
        ∧ (scoreArticles (embLog f) sqrt qe arts log).2.1
          = arts.map (fun a => match a.embedding with
              | some _ => a
              | none => { a with embedding := some (f (articleText a)) }) := by
  intro arts
  unfold articleText
  induction arts with
  | nil =>
    intro log
    constructor
    · simp [scoreArticles]
    · simp [scoreArticles]
  | cons a rest ih =>
    intro log
    simp only [scoreArticles, List.filter_cons, List.map_cons]
    cases ha : a.embedding with
    | some v =>
      have hisnone : a.embedding.isNone = false := by simp [ha]
      constructor
      · simp only [ha, hisnone]
        rw [(ih log).1]
        simp
      · simp only [ha, hisnone]
        rw [(ih log).2]
    | none =>
      have hembed : (embLog f).embed log (a.title ++ ". " ++ a.description)
          = (log ++ [a.title ++ ". " ++ a.description],
             some (f (a.title ++ ". " ++ a.description))) := rfl
      constructor
      · simp only [ha, hembed, Option.isNone_none, eq_self_iff_true, if_true]
        rw [(ih (log ++ [a.title ++ ". " ++ a.description])).1]
        simp [List.append_assoc]
      · simp only [ha, hembed, Option.isNone_none, eq_self_iff_true, if_true]
        rw [(ih (log ++ [a.title ++ ". " ++ a.description])).2]

theorem searchArticlesAI_embLog (f : String → List ℚ) (sqrt : ℚ → ℚ)
    (query : String) {n : ℕ}
    (hf : ∀ t : String, (f t).length = n) :
    ∀ (arts : List Article) (log : List String),
      (∀ a ∈ arts, ∀ v, a.embedding = some v → v.length = n) →
      query.trim.isEmpty = false →
      (searchArticlesAI (embLog f) sqrt query arts log).state
          = log ++ [query] ++ (arts.filter (fun a => a.embedding.isNone)).map articleText
        ∧ (searchArticlesAI (embLog f) sqrt query arts log).articles
          = arts.map (fun a => match a.embedding with
              | some _ => a
              | none => { a with embedding := some (f (articleText a)) }) := by
  intro arts log hc hq
  unfold searchArticlesAI
  rw [if_neg (by simp [hq])]
  have hE : ∀ (s1 : List String) (t : String),
      ∃ v, ((embLog f).embed s1 t).2 = some v ∧ v.length = n :=
    fun s1 t => ⟨f t, rfl, hf t⟩
  obtain ⟨rs, hrs⟩ := scoreArticles_isSome hE (hf query) arts (log ++ [query]) hc
  have hpair := scoreArticles_embLog_state f sqrt (f query) arts (log ++ [query])
  rcases hsc : scoreArticles (embLog f) sqrt (f query) arts (log ++ [query]) with
    ⟨s2, arts2, o2⟩
  rw [hsc] at hrs hpair
  simp only at hrs
  subst hrs
  have hembed : (embLog f).embed log query = (log ++ [query], some (f query)) := rfl
  rw [hembed]
  dsimp only
  rw [hsc]
  exact ⟨hpair.1, hpair.2⟩

theorem searchArticlesHybrid_state_articles {σ : Type} (E : Embedder σ) (sqrt : ℚ → ℚ)
    (query : String) (articles : List Article) (s : σ)
    (hq : query.trim.isEmpty = false) :
    (searchArticlesHybrid E sqrt query articles s).state
        = (searchArticlesAI E sqrt query articles s).state
      ∧ (searchArticlesHybrid E sqrt query articles s).articles
        = (searchArticlesAI E sqrt query articles s).articles := by
  unfold searchArticlesHybrid
  rw [if_neg (by simp [hq])]
  exact ⟨rfl, rfl⟩

/-- C5: two successive hybrid searches with the same non-empty query over
the same corpus, against a Ready (always-successful, fixed-dimension)
logged embedding provider, never recompute a document vector cached by
the first call: the second call embeds only the query (its log grows by
exactly `[query]`), and across both calls the provider is invoked at most
once per document text (the cached vector being the embedding of
`title ++ ". " ++ description`). -/
theorem claim_C5_vector_cache_idempotent (f : String → List ℚ) (sqrt : ℚ → ℚ)
    (query : String) (articles : List Article) {n : ℕ}
    (hf : ∀ t : String, (f t).length = n)
    (hq : query.trim.isEmpty = false)
    (hc : ∀ a ∈ articles, ∀ v, a.embedding = some v → v.length = n)
    (hxq : ∀ a ∈ articles, articleText a ≠ query)
    (ht : (articles.map articleText).Nodup) :
    (searchArticlesHybrid (embLog f) sqrt query
          (searchArticlesHybrid (embLog f) sqrt query articles []).articles
          (searchArticlesHybrid (embLog f) sqrt query articles []).state).state
        = (searchArticlesHybrid (embLog f) sqrt query articles []).state ++ [query]
      ∧ ∀ a ∈ articles,
          ((searchArticlesHybrid (embLog f) sqrt query
            (searchArticlesHybrid (embLog f) sqrt query articles []).articles
            (searchArticlesHybrid (embLog f) sqrt query articles []).state).state).count
              (articleText a) ≤ 1 := by
  have hH1 := searchArticlesHybrid_state_articles (embLog f) sqrt query articles [] hq
  have hAI1 := searchArticlesAI_embLog f sqrt query hf articles [] hc hq
  have harts1v : (searchArticlesHybrid (embLog f) sqrt query articles []).articles
      = articles.map (fun a => match a.embedding with
          | some _ => a
          | none => { a with embedding := some (f (articleText a)) }) := by
    rw [hH1.2, hAI1.2]
  have hst1v : (searchArticlesHybrid (embLog f) sqrt query articles []).state
      = [query] ++ (articles.filter (fun a => a.embedding.isNone)).map articleText := by
    rw [hH1.1, hAI1.1]
    simp
  have hc1 : ∀ a ∈ (searchArticlesHybrid (embLog f) sqrt query articles []).articles,
      ∀ v, a.embedding = some v → v.length = n := by
    intro a ha v hv
    rw [harts1v] at ha
    rcases List.mem_map.mp ha with ⟨a0, ha0, he⟩
    cases h0 : a0.embedding with
    | some v0 =>
      rw [h0] at he
      subst he
      exact hc a0 ha0 v hv
    | none =>
      rw [h0] at he
      subst he
      simp only at hv
      rw [← Option.some_inj.mp hv]
      exact hf (articleText a0)
  have hfilter1 : (searchArticlesHybrid (embLog f) sqrt query articles []).articles.filter
      (fun a => a.embedding.isNone) = [] := by
    rw [harts1v, List.filter_eq_nil_iff]
    intro a ha
    rcases List.mem_map.mp ha with ⟨a0, ha0, he⟩
    cases h0 : a0.embedding with
    | some v0 =>
      rw [h0] at he
      subst he
      simp [h0]
    | none =>
      rw [h0] at he
      subst he
      simp
  have hH2 := searchArticlesHybrid_state_articles (embLog f) sqrt query
    (searchArticlesHybrid (embLog f) sqrt query articles []).articles
    (searchArticlesHybrid (embLog f) sqrt query articles []).state hq
  have hAI2 := searchArticlesAI_embLog f sqrt query hf
    (searchArticlesHybrid (embLog f) sqrt query articles []).articles
    (searchArticlesHybrid (embLog f) sqrt query articles []).state hc1 hq
  constructor
  · rw [hH2.1, hAI2.1, hfilter1]
    simp
  · intro a ha
    rw [hH2.1, hAI2.1, hfilter1]
    simp only [List.map_nil, List.append_nil]
    rw [hst1v]
    simp only [List.count_append]
    have hq0 : List.count (articleText a) [query] = 0 := by
      rw [List.count_eq_zero]
      simp only [List.mem_singleton]
      exact hxq a ha
    have hU : List.count (articleText a)
        ((articles.filter (fun x => x.embedding.isNone)).map articleText) ≤ 1 := by
      have hsub : List.Sublist
          ((articles.filter (fun x => x.embedding.isNone)).map articleText)
          (articles.map articleText) :=
        (List.filter_sublist articles).map articleText
      exact le_trans (hsub.count_le _) (List.nodup_iff_count_le_one.mp ht _)
    omega

/-- Witness for C5: two successive hybrid searches over `[artC]` with
query `"history zzz"` against the constant logged provider; the first run
logs the query and the one document text, the second logs only the query
again. -/
theorem claim_C5_witness :
    (∀ t : String, ((fun _ : String => ([1, 0] : List ℚ)) t).length = 2)
      ∧ ("history zzz".trim.isEmpty = false)
      ∧ (∀ a ∈ [artC], ∀ v, a.embedding = some v → v.length = 2)
      ∧ (∀ a ∈ [artC], articleText a ≠ "history zzz")
      ∧ ([artC].map articleText).Nodup
      ∧ ((searchArticlesHybrid (embLog (fun _ : String => ([1, 0] : List ℚ))) ratSqrt
            "history zzz"
            (searchArticlesHybrid (embLog (fun _ : String => ([1, 0] : List ℚ))) ratSqrt
              "history zzz" [artC] []).articles
            (searchArticlesHybrid (embLog (fun _ : String => ([1, 0] : List ℚ))) ratSqrt
              "history zzz" [artC] []).state).state
          = (searchArticlesHybrid (embLog (fun _ : String => ([1, 0] : List ℚ))) ratSqrt
              "history zzz" [artC] []).state ++ ["history zzz"]
        ∧ ∀ a ∈ [artC],
            ((searchArticlesHybrid (embLog (fun _ : String => ([1, 0] : List ℚ))) ratSqrt
              "history zzz"
              (searchArticlesHybrid (embLog (fun _ : String => ([1, 0] : List ℚ))) ratSqrt
                "history zzz" [artC] []).articles
              (searchArticlesHybrid (embLog (fun _ : String => ([1, 0] : List ℚ))) ratSqrt
                "history zzz" [artC] []).state).state).count (articleText a) ≤ 1)
      ∧ ((searchArticlesHybrid (embLog (fun _ : String => ([1, 0] : List ℚ))) ratSqrt
            "history zzz" [artC] []).state
          = ["history zzz", "History Museum. "]) := by
  have hc : ∀ a ∈ [artC], ∀ v, a.embedding = some v → v.length = 2 := by
    intro a ha v hv
    rcases List.mem_cons.mp ha with rfl | h2
    · exact absurd hv (by simp [artC])
    · simp at h2
  exact ⟨fun t => rfl,
    by with_unfolding_all decide,
    hc,
    by with_unfolding_all decide,
    by with_unfolding_all decide,
    claim_C5_vector_cache_idempotent (fun _ => [1, 0]) ratSqrt "history zzz" [artC]
      (fun t => rfl) (by with_unfolding_all decide) hc
      (by with_unfolding_all decide) (by with_unfolding_all decide),
    by with_unfolding_all decide⟩
